import Mathlib

/-!
# Verification of the meeting-coach repository core

Shallow embedding of the repository's transcript-assembly and job-polling
core (modelled from the specification, since only their callers appear in
the provided sources) together with the session-manager and CLI helpers
from `src/session_manager.py` and `src/agent.py`, with proofs of the
specified properties.
-/

namespace MeetingCoach

/-! ## Data model: tokens and transcript results -/

/-- Modelled from the spec: an annotated transcript token as delivered by
the upstream transcription service (§3).  `kind` is carried as a raw tag so
that unrecognized kinds can be represented; the recognized kinds are
`"speech"` and `"punctuation"`.  `speaker` is optional (diarization). -/
structure Token where
  kind : String
  text : String
  speaker : Option String
deriving Repr, DecidableEq

/-- A token kind the assembler recognizes (§3: enum {Speech, Punctuation}). -/
def recognizedKind (k : String) : Bool :=
  k = "speech" ∨ k = "punctuation"

/-- Modelled from the spec: `MalformedTokenError{index}` (§7). -/
structure MalformedTokenError where
  index : Nat
deriving Repr, DecidableEq

/-- Modelled from the spec: the output of `assemble` (§3). -/
structure TranscriptResult where
  full_text : String
  segments : List (String × String)
deriving Repr, DecidableEq

/-! ## TranscriptAssembler (modelled from the spec, §4.2) -/

/-- Join buffered pieces with a single space (§4.2 step 2, flush rule). -/
def joinSp : List String → String
  | [] => ""
  | [x] => x
  | x :: y :: xs => x ++ " " ++ joinSp (y :: xs)

/-- Concatenate a punctuation text directly onto the last buffer entry
(no inserted space); an empty buffer gets it as a standalone entry
(§4.2 step 2, punctuation rule). -/
def appendPunct : List String → String → List String
  | [], p => [p]
  | [x], p => [x ++ p]
  | x :: y :: xs, p => x :: appendPunct (y :: xs) p

/-- Append a speech text to the running full text: speech tokens are
joined by a single space, with no leading space (§3, §4.2 step 4). -/
def joinSpeech (acc t : String) : String :=
  if acc = "" then t else acc ++ " " ++ t

/-- Mutable state of the assembly pass (§4.2 step 1), plus the
independently built full text (§4.2 step 4). -/
structure AsmState where
  currentSpeaker : Option String
  buffer : List String
  segments : List (String × String)
  fullText : String
deriving Repr, DecidableEq

/-- Initial assembly state: speaker unset, buffer and segments empty. -/
def initAsmState : AsmState :=
  { currentSpeaker := none, buffer := [], segments := [], fullText := "" }

/-- Flush the current buffer as a segment when it is non-empty and a
current speaker is set (§4.2 step 2 / step 3 flush rule). -/
def flushState (st : AsmState) : List (String × String) :=
  match st.currentSpeaker with
  | some spk => if st.buffer = [] then st.segments
                else st.segments ++ [(spk, joinSp st.buffer)]
  | none => st.segments

/-- Modelled from the spec: the speaker-change handling of one loop step
(§4.2 step 2, first bullet).  A token carrying a speaker identity
different from `current_speaker` flushes a non-empty buffer when a
current speaker is set, then resets the buffer and adopts the new
identity; a token with no identity means "no speaker change". -/
def speakerStep (st : AsmState) : Option String → AsmState
  | some spk =>
    if st.currentSpeaker = some spk then st
    else { st with segments := flushState st, buffer := [],
                   currentSpeaker := some spk }
  | none => st

/-- Modelled from the spec: the kind-based append of one loop step (§4.2
step 2, second and third bullets) together with the independent full-text
build (step 4).  A kind other than `"speech"` is treated as punctuation
here, the caller having already rejected unrecognized kinds. -/
def kindStep (st : AsmState) (tok : Token) : AsmState :=
  if tok.kind = "speech" then
    { st with buffer := st.buffer ++ [tok.text],
              fullText := joinSpeech st.fullText tok.text }
  else
    { st with buffer := appendPunct st.buffer tok.text,
              fullText := st.fullText ++ tok.text }

/-- Modelled from the spec: one step of the assembly loop (§4.2 step 2):
speaker handling first, then the kind-based append. -/
def asmStep (st : AsmState) (tok : Token) : AsmState :=
  kindStep (speakerStep st tok.speaker) tok

/-- Modelled from the spec: the assembly loop over the token sequence,
carrying the index of the current token; an unrecognized kind aborts the
whole pass with that index (§4.2, §7). -/
def assembleAux (i : Nat) (st : AsmState) : List Token → Except MalformedTokenError AsmState
  | [] => .ok st
  | tok :: rest =>
    if recognizedKind tok.kind then
      assembleAux (i + 1) (asmStep st tok) rest
    else
      .error ⟨i⟩

/-- Modelled from the spec: `assemble(tokens) -> TranscriptResult` (§4.2);
the final flush of step 3 is applied to the end state. -/
def assemble (tokens : List Token) : Except MalformedTokenError TranscriptResult :=
  match assembleAux 0 initAsmState tokens with
  | .error e => .error e
  | .ok st => .ok { full_text := st.fullText, segments := flushState st }

/-- The character content of a string with all spaces removed: the
"token content modulo the spacing/punctuation-merge rule" of §3's
invariant. -/
def despace (s : String) : List Char :=
  s.data.filter (fun c => c != ' ')

/-- The despaced content of a list of segment texts. -/
def bufContent (buf : List String) : List Char :=
  (buf.map despace).flatten

/-- The despaced content of a segment list, speaker labels ignored. -/
def segsContent (segs : List (String × String)) : List Char :=
  (segs.map fun q => despace q.2).flatten

/-- The content invariant of a running assembly state: the despaced full
text equals the despaced content of the emitted segments followed by the
as-yet-unflushed buffer. -/
def ContentInv (st : AsmState) : Prop :=
  despace st.fullText = segsContent st.segments ++ bufContent st.buffer

/-! ## JobWaiter (modelled from the spec, §4.1) -/

/-- Modelled from the spec: the status reported by one status query (§3,
§6): in progress, completed with a result locator, or failed with an
upstream reason. -/
inductive JobStatus where
  | InProgress
  | Completed (locator : String)
  | Failed (reason : String)
deriving Repr, DecidableEq

/-- Modelled from the spec: the error taxonomy of the waiter (§7):
an upstream-declared failure carrying the reason verbatim, or a locally
detected timeout. -/
inductive JobError where
  | UpstreamFailed (reason : String)
  | TimedOut
deriving Repr, DecidableEq

/-- Modelled from the spec: the poll loop of `await_completion` (§4.1),
over an injected status-query function (`statuses n` is the status
reported by the `n`-th query) and a virtual clock.  Each round queries,
returns immediately on a terminal status, otherwise sleeps
`pollInterval` and re-checks the elapsed time against `maxWait` before
the next query.  The fuel argument only bounds the recursion; it is
chosen large enough in `await_completion` that it never runs out before
the timeout check fires.  Returns the outcome together with the elapsed
time at return. -/
def awaitLoop (statuses : Nat → JobStatus) (pollInterval maxWait : Nat) :
    Nat → Nat → Nat → Except JobError String × Nat
  | 0, _, elapsed => (.error .TimedOut, elapsed)
  | fuel + 1, n, elapsed =>
    match statuses n with
    | .Completed loc => (.ok loc, elapsed)
    | .Failed r => (.error (.UpstreamFailed r), elapsed)
    | .InProgress =>
      if maxWait < elapsed + pollInterval then
        (.error .TimedOut, elapsed + pollInterval)
      else
        awaitLoop statuses pollInterval maxWait fuel (n + 1) (elapsed + pollInterval)

/-- Modelled from the spec: `await_completion(job_id, poll_interval,
max_wait)` (§4.1), with the job identified by its injected status-query
function. -/
def await_completion (statuses : Nat → JobStatus) (pollInterval maxWait : Nat) :
    Except JobError String × Nat :=
  awaitLoop statuses pollInterval maxWait (maxWait / pollInterval + 1) 0 0

/-! ## Session manager (from `src/session_manager.py`) -/

/-- A session record, from `save_session` in `src/session_manager.py`
(lines 48–57): the seven fields written for each saved session. -/
structure Session where
  session_id : String
  audio_filename : String
  user_role : String
  analysis_type : String
  output_file : String
  timestamp : String
  last_accessed : String
deriving Repr, DecidableEq

/-- `_load_sessions` (lines 25–31): the storage file is `none` when
absent; `parse` stands for the external JSON decoder, `none` meaning a
decode error.  Both failure cases yield the empty list. -/
def load_sessions (file : Option String)
    (parse : String → Option (List Session)) : List Session :=
  match file with
  | none => []
  | some contents =>
    match parse contents with
    | none => []
    | some sessions => sessions

/-- `save_session` (lines 38–60): load, build the record, append, save.
The two `datetime.now().isoformat()` calls are passed in as `now1` and
`now2`. -/
def save_session (sessions : List Session)
    (session_id audio_filename user_role analysis_type output_file : String)
    (now1 now2 : String) : List Session :=
  sessions ++ [{ session_id := session_id, audio_filename := audio_filename,
                 user_role := user_role, analysis_type := analysis_type,
                 output_file := output_file, timestamp := now1,
                 last_accessed := now2 }]

/-- The linear scan of `get_session` (lines 67–73): return the first
record whose `session_id` matches, else `None`. -/
def findSession (sid : String) : List Session → Option Session
  | [] => none
  | s :: rest => if s.session_id = sid then some s else findSession sid rest

/-- `get_session` (lines 67–73): a read-only operation on the store; the
store is returned unchanged alongside the lookup result. -/
def get_session (sessions : List Session) (sid : String) :
    Option Session × List Session :=
  (findSession sid sessions, sessions)

/-- `delete_session` (lines 84–88): keep exactly the records whose
`session_id` differs from the argument. -/
def delete_session (sessions : List Session) (sid : String) : List Session :=
  sessions.filter (fun s => s.session_id != sid)

/-- Stable descending insertion by `timestamp`, modelling Python's stable
`sorted(..., key=lambda x: x.get('timestamp', ''), reverse=True)` used by
`get_all_sessions` (lines 62–65). -/
def insertByTimestampDesc (s : Session) : List Session → List Session
  | [] => [s]
  | t :: ts => if t.timestamp ≤ s.timestamp then s :: t :: ts
               else t :: insertByTimestampDesc s ts

/-- `get_all_sessions` (lines 62–65): all sessions, most recent first. -/
def get_all_sessions (sessions : List Session) : List Session :=
  sessions.foldr insertByTimestampDesc []

/-- `update_last_accessed` (lines 75–82): update the first matching
record's `last_accessed` field, then save. -/
def update_last_accessed (sessions : List Session) (sid now : String) :
    List Session :=
  match sessions with
  | [] => []
  | s :: rest =>
    if s.session_id = sid then { s with last_accessed := now } :: rest
    else s :: update_last_accessed rest sid now

/-! ## CLI output-file defaulting (from `src/agent.py`) -/

/-- Index of the last occurrence of a character in a list, if any. -/
def lastIdxOf (ch : Char) : List Char → Option Nat
  | [] => none
  | c :: cs =>
    match lastIdxOf ch cs with
    | some i => some (i + 1)
    | none => if c = ch then some 0 else none

/-- Split a character list at every `/`, keeping empty pieces. -/
def splitSlash : List Char → List (List Char)
  | [] => [[]]
  | c :: cs =>
    if c = '/' then [] :: splitSlash cs
    else
      match splitSlash cs with
      | [] => [[c]]
      | s :: ss => (c :: s) :: ss

/-- The parsed components of a POSIX path as pathlib keeps them: empty
pieces (root, doubled or trailing slashes) and `.` pieces are dropped
during parsing, `..` pieces are kept. -/
def pathComponents (p : String) : List (List Char) :=
  (splitSlash p.data).filter (fun s => decide (s ≠ [] ∧ s ≠ ['.']))

/-- `Path(p).name`: the last parsed component, or `""` when there is
none (so `"dir/"` gives `"dir"` and `"foo/."` gives `"foo"`). -/
def fileBaseName (p : String) : String :=
  String.mk ((pathComponents p).getLastD [])

/-- `Path(p).stem`: the name without its suffix.  CPython strips from
the last `.` only when its index `i` satisfies `0 < i < len(name) - 1`:
a leading dot starts no suffix and a trailing dot is kept (so
`"meeting."` keeps its dot and `".bashrc"` is unchanged). -/
def pathStem (p : String) : String :=
  let n := fileBaseName p
  match lastIdxOf '.' n.data with
  | some i =>
    if 0 < i ∧ i < n.data.length - 1 then String.mk (n.data.take i) else n
  | none => n

/-- The output-file resolution of `run_meeting_analysis`
(`src/agent.py` lines 160–169): abort when the audio file does not
exist; otherwise keep a supplied output file, and default a missing one
to `f"\x7bPath(audio_path).stem\x7d_analysis.md"`. -/
def run_meeting_analysis_output (audioExists : Bool) (audio_path : String)
    (output_file : Option String) : Option String :=
  if audioExists then
    some (match output_file with
          | some f => f
          | none => pathStem audio_path ++ "_analysis.md")
  else
    none

/-! ## Theorems -/

/-- C5: `assemble` on the empty token sequence succeeds and returns the
empty full text and no segments; it is not an error. -/
theorem assemble_empty_ok :
    assemble [] = .ok { full_text := "", segments := [] } := rfl

/-- C6: `save_session` stores the prior list with exactly one new record
appended at the end, made of exactly the seven fields; no existing record
is modified, removed, or reordered (the stored prefix of the old length
is the old list). -/
theorem save_session_appends_one (sessions : List Session)
    (sid afn role typ outf t1 t2 : String) :
    (save_session sessions sid afn role typ outf t1 t2).length
        = sessions.length + 1 ∧
    (save_session sessions sid afn role typ outf t1 t2).take sessions.length
        = sessions ∧
    (save_session sessions sid afn role typ outf t1 t2).getLast?
        = some { session_id := sid, audio_filename := afn, user_role := role,
                 analysis_type := typ, output_file := outf,
                 timestamp := t1, last_accessed := t2 } := by
  refine ⟨?_, ?_, ?_⟩
  · simp [save_session]
  · exact List.take_left sessions _
  · exact List.getLast?_concat sessions

/-- `findSession` returns `none` exactly when no stored record has the
requested id. -/
theorem findSession_eq_none_iff (sid : String) (l : List Session) :
    findSession sid l = none ↔ ∀ s ∈ l, s.session_id ≠ sid := by
  induction l with
  | nil => simp [findSession]
  | cons s rest ih =>
    by_cases h : s.session_id = sid
    · simp [findSession, h]
    · simp [findSession, h, ih]

/-- A successful `findSession` result is the first record in stored order
with the requested id. -/
theorem findSession_some_first (sid : String) (l : List Session) (r : Session)
    (h : findSession sid l = some r) :
    r.session_id = sid ∧
    ∃ pre post, l = pre ++ r :: post ∧ ∀ s ∈ pre, s.session_id ≠ sid := by
  induction l with
  | nil => simp [findSession] at h
  | cons s rest ih =>
    by_cases hs : s.session_id = sid
    · simp only [findSession, if_pos hs, Option.some.injEq] at h
      subst h
      exact ⟨hs, [], rest, rfl, by simp⟩
    · simp only [findSession, if_neg hs] at h
      obtain ⟨h1, pre, post, heq, hpre⟩ := ih h
      refine ⟨h1, s :: pre, post, by rw [heq]; rfl, ?_⟩
      intro x hx
      rcases List.mem_cons.mp hx with hx | hx
      · rw [hx]; exact hs
      · exact hpre x hx

/-- C7: `get_session` returns the first record in stored order whose
`session_id` matches, returns `none` exactly when no record matches, and
leaves the stored list unchanged. -/
theorem get_session_first_match (sessions : List Session) (sid : String) :
    ((get_session sessions sid).1 = none ↔
        ∀ s ∈ sessions, s.session_id ≠ sid) ∧
    (∀ r, (get_session sessions sid).1 = some r →
        r.session_id = sid ∧
        ∃ pre post, sessions = pre ++ r :: post ∧
          ∀ s ∈ pre, s.session_id ≠ sid) ∧
    (get_session sessions sid).2 = sessions := by
  refine ⟨findSession_eq_none_iff sid sessions, ?_, rfl⟩
  intro r hr
  exact findSession_some_first sid sessions r hr

/-- C8: `delete_session` removes every record whose `session_id` equals
the argument (count drops to zero) and keeps every other record with its
multiplicity, fields and relative order intact (the result is a sublist
of the original). -/
theorem delete_session_removes_exactly (sessions : List Session) (sid : String) :
    List.Sublist (delete_session sessions sid) sessions ∧
    ∀ s : Session, (delete_session sessions sid).count s =
      if s.session_id = sid then 0 else sessions.count s := by
  constructor
  · exact List.filter_sublist sessions
  · intro s
    by_cases h : s.session_id = sid
    · rw [if_pos h, List.count_eq_zero]
      simp [delete_session, List.mem_filter, h]
    · rw [if_neg h]
      exact List.count_filter (by simp [h])

/-- C9: when the audio file exists and no output file is supplied,
`run_meeting_analysis` defaults the output file to the audio file's base
name without extension followed by `"_analysis.md"`. -/
theorem run_meeting_analysis_default_output (audio_path : String)
    (output_file : Option String) (audioExists : Bool)
    (hex : audioExists = true) (hout : output_file = none) :
    run_meeting_analysis_output audioExists audio_path output_file =
      some (pathStem audio_path ++ "_analysis.md") := by
  subst hex; subst hout; rfl

/-- Witness for C9 at a concrete path: the default output for
`recordings/meeting.mp3` is `meeting_analysis.md`. -/
theorem run_meeting_analysis_default_output_witness :
    (true = true) ∧ ((none : Option String) = none) ∧
    run_meeting_analysis_output true "recordings/meeting.mp3" none =
      some (pathStem "recordings/meeting.mp3" ++ "_analysis.md") ∧
    pathStem "recordings/meeting.mp3" ++ "_analysis.md" = "meeting_analysis.md" :=
  ⟨rfl, rfl,
   run_meeting_analysis_default_output "recordings/meeting.mp3" none true rfl rfl,
   by decide⟩

/-- C10: when the session storage file is absent or its contents fail to
decode, `_load_sessions` yields the empty list, so lookups, the sorted
listing, the access-time update and deletion all behave as if there were
no stored sessions. -/
theorem load_sessions_fail_safe (file : Option String)
    (parse : String → Option (List Session)) (sid t : String)
    (h : file = none ∨ ∃ c, file = some c ∧ parse c = none) :
    load_sessions file parse = [] ∧
    get_all_sessions (load_sessions file parse) = [] ∧
    (get_session (load_sessions file parse) sid).1 = none ∧
    update_last_accessed (load_sessions file parse) sid t = [] ∧
    delete_session (load_sessions file parse) sid = [] := by
  have hload : load_sessions file parse = [] := by
    rcases h with h | ⟨c, hc, hp⟩
    · rw [h]; rfl
    · rw [hc]; simp [load_sessions, hp]
  refine ⟨hload, ?_, ?_, ?_, ?_⟩ <;> rw [hload] <;> rfl

/-- Witness for C10 at a concrete store: a missing file behaves as an
empty session list for every operation. -/
theorem load_sessions_fail_safe_witness :
    load_sessions none (fun _ => none) = [] ∧
    get_all_sessions (load_sessions none (fun _ => none)) = [] ∧
    (get_session (load_sessions none (fun _ => none)) "s1").1 = none ∧
    update_last_accessed (load_sessions none (fun _ => none)) "s1" "t0" = [] ∧
    delete_session (load_sessions none (fun _ => none)) "s1" = [] :=
  load_sessions_fail_safe none (fun _ => none) "s1" "t0" (Or.inl rfl)

/-- The poll loop returns the upstream failure at the poll that first
reports it, with the elapsed time accumulated until that poll. -/
theorem awaitLoop_failed (statuses : Nat → JobStatus) (p maxW : Nat) (r : String)
    (k : Nat) :
    ∀ fuel n elapsed,
      (∀ j, j < k → statuses (n + j) = .InProgress) →
      statuses (n + k) = .Failed r →
      elapsed + k * p ≤ maxW →
      k < fuel →
      awaitLoop statuses p maxW fuel n elapsed =
        (.error (.UpstreamFailed r), elapsed + k * p) := by
  induction k with
  | zero =>
    intro fuel n elapsed _ hfail _ hfuel
    obtain ⟨fuel', rfl⟩ := Nat.exists_eq_succ_of_ne_zero (Nat.pos_iff_ne_zero.mp hfuel)
    simp only [awaitLoop]
    rw [show n + 0 = n from rfl] at hfail
    rw [hfail]
    simp
  | succ k ih =>
    intro fuel n elapsed hprog hfail htime hfuel
    obtain ⟨fuel', rfl⟩ := Nat.exists_eq_succ_of_ne_zero
      (Nat.pos_iff_ne_zero.mp (Nat.lt_of_le_of_lt (Nat.zero_le _) hfuel))
    simp only [awaitLoop]
    have h0 : statuses n = .InProgress := by
      have := hprog 0 (Nat.succ_pos k)
      simpa using this
    rw [h0]
    have hle : elapsed + p ≤ maxW := by
      have : elapsed + p ≤ elapsed + (k + 1) * p := by
        have : p ≤ (k + 1) * p := Nat.le_mul_of_pos_left p (Nat.succ_pos k)
        omega
      omega
    rw [if_neg (by omega)]
    have := ih fuel' (n + 1) (elapsed + p)
      (fun j hj => by
        have := hprog (j + 1) (Nat.succ_lt_succ hj)
        simpa [Nat.add_assoc, Nat.add_comm 1 j] using this)
      (by
        have : n + 1 + k = n + (k + 1) := by omega
        rw [this]; exact hfail)
      (by have : elapsed + p + k * p = elapsed + (k + 1) * p := by ring
          omega)
      (Nat.lt_of_succ_lt_succ hfuel)
    rw [this]
    have : elapsed + p + k * p = elapsed + (k + 1) * p := by ring
    rw [this]

/-- C2: when the `k`-th status query is the first to report a terminal
state and it reports `Failed` with some reason, within the wait budget,
`await_completion` returns at that query with `UpstreamFailed` carrying
the reason verbatim, after only `k` poll intervals (so without waiting
out `max_wait`), and that failure is distinguishable from `TimedOut`. -/
theorem await_completion_failed (statuses : Nat → JobStatus) (p maxW k : Nat)
    (r : String) (hp : 0 < p)
    (hprog : ∀ j, j < k → statuses j = .InProgress)
    (hfail : statuses k = .Failed r)
    (htime : k * p ≤ maxW) :
    await_completion statuses p maxW = (.error (.UpstreamFailed r), k * p) ∧
    k * p ≤ maxW ∧
    JobError.UpstreamFailed r ≠ JobError.TimedOut := by
  refine ⟨?_, htime, by simp⟩
  have hfuel : k < maxW / p + 1 :=
    Nat.lt_succ_of_le ((Nat.le_div_iff_mul_le hp).mpr htime)
  have := awaitLoop_failed statuses p maxW r k (maxW / p + 1) 0 0
    (fun j hj => by simpa using hprog j hj)
    (by simpa using hfail)
    (by omega) hfuel
  simpa [await_completion] using this

/-- Witness for C2, spec Scenario 4: the sequence
`[InProgress, Failed("unsupported codec")]` makes `await_completion`
return `UpstreamFailed` with the verbatim reason at elapsed time 5,
far below `max_wait = 600`. -/
theorem await_completion_failed_witness :
    await_completion
        (fun n => if n = 1 then .Failed "unsupported codec" else .InProgress)
        5 600
      = (.error (.UpstreamFailed "unsupported codec"), 1 * 5) ∧
    1 * 5 ≤ 600 ∧
    JobError.UpstreamFailed "unsupported codec" ≠ JobError.TimedOut :=
  await_completion_failed
    (fun n => if n = 1 then .Failed "unsupported codec" else .InProgress)
    5 600 1 "unsupported codec" (by decide)
    (fun j hj => by
      have : j = 0 := by omega
      subst this; rfl)
    rfl (by omega)

/-- When every status query reports `InProgress`, the poll loop
terminates with `TimedOut` and the elapsed time at return stays within
one poll interval of the wait budget. -/
theorem awaitLoop_timeout (statuses : Nat → JobStatus) (p maxW : Nat)
    (hall : ∀ n, statuses n = .InProgress) :
    ∀ fuel n elapsed, elapsed ≤ maxW →
      (awaitLoop statuses p maxW fuel n elapsed).1 = .error .TimedOut ∧
      (awaitLoop statuses p maxW fuel n elapsed).2 ≤ maxW + p := by
  intro fuel
  induction fuel with
  | zero =>
    intro n elapsed he
    exact ⟨rfl, by simpa [awaitLoop] using Nat.le_add_right_of_le he⟩
  | succ fuel ih =>
    intro n elapsed he
    simp only [awaitLoop, hall n]
    by_cases hlt : maxW < elapsed + p
    · rw [if_pos hlt]
      exact ⟨rfl, by omega⟩
    · rw [if_neg hlt]
      exact ih (n + 1) (elapsed + p) (by omega)

/-- C3: on a status sequence that never reaches a terminal state,
`await_completion` returns a `TimedOut` failure (it cannot hang: the
model is a total function) with elapsed time at most
`max_wait + poll_interval`. -/
theorem await_completion_timeout (statuses : Nat → JobStatus) (p maxW : Nat)
    (hall : ∀ n, statuses n = .InProgress) :
    (await_completion statuses p maxW).1 = .error .TimedOut ∧
    (await_completion statuses p maxW).2 ≤ maxW + p :=
  awaitLoop_timeout statuses p maxW hall _ 0 0 (Nat.zero_le _)

/-- Witness for C3, spec Scenario 3: an always-`InProgress` job with
`max_wait = 20` and `poll_interval = 5` times out with elapsed time at
most 25. -/
theorem await_completion_timeout_witness :
    (await_completion (fun _ => .InProgress) 5 20).1 = .error .TimedOut ∧
    (await_completion (fun _ => .InProgress) 5 20).2 ≤ 20 + 5 :=
  await_completion_timeout (fun _ => .InProgress) 5 20 (fun _ => rfl)

/-- The assembly loop aborts at the relative index of the first token
whose kind is unrecognized, all earlier tokens being recognized. -/
theorem assembleAux_error_of_bad (l : List Token) :
    ∀ (i : Nat) (st : AsmState),
      (∃ t ∈ l, recognizedKind t.kind = false) →
      ∃ k, ∃ hk : k < l.length,
        assembleAux i st l = .error ⟨i + k⟩ ∧
        recognizedKind (l.get ⟨k, hk⟩).kind = false ∧
        ∀ j, j < k → ∀ hj : j < l.length,
          recognizedKind (l.get ⟨j, hj⟩).kind = true := by
  induction l with
  | nil => intro i st h; simp at h
  | cons t rest ih =>
    intro i st h
    cases hrec : recognizedKind t.kind with
    | false =>
      refine ⟨0, Nat.succ_pos _, ?_, ?_, ?_⟩
      · simp [assembleAux, hrec]
      · simpa using hrec
      · intro j hj
        exact absurd hj (Nat.not_lt_zero j)
    | true =>
      have hrest : ∃ u ∈ rest, recognizedKind u.kind = false := by
        rcases h with ⟨u, hu, hbad⟩
        rcases List.mem_cons.mp hu with h1 | h1
        · rw [h1] at hbad; rw [hbad] at hrec; cases hrec
        · exact ⟨u, h1, hbad⟩
      obtain ⟨k, hk, heq, hbadk, hfirst⟩ := ih (i + 1) (asmStep st t) hrest
      refine ⟨k + 1, Nat.succ_lt_succ hk, ?_, ?_, ?_⟩
      · have hstep : assembleAux i st (t :: rest)
            = assembleAux (i + 1) (asmStep st t) rest := by
          simp [assembleAux, hrec]
        rw [hstep, heq, show i + 1 + k = i + (k + 1) from by omega]
      · exact hbadk
      · intro j hjk hj
        cases j with
        | zero => exact hrec
        | succ j =>
          exact hfirst j (Nat.lt_of_succ_lt_succ hjk) (Nat.lt_of_succ_lt_succ hj)

/-- C4: on any input containing a token of unrecognized kind, `assemble`
fails with `MalformedTokenError` carrying the index of the (first)
offending token — it returns an error, so no partial or corrupt
`TranscriptResult` is produced for that call. -/
theorem assemble_rejects_malformed (tokens : List Token)
    (h : ∃ t ∈ tokens, recognizedKind t.kind = false) :
    ∃ k, ∃ hk : k < tokens.length,
      assemble tokens = .error ⟨k⟩ ∧
      recognizedKind (tokens.get ⟨k, hk⟩).kind = false ∧
      ∀ j, j < k → ∀ hj : j < tokens.length,
        recognizedKind (tokens.get ⟨j, hj⟩).kind = true := by
  obtain ⟨k, hk, heq, hbad, hfirst⟩ :=
    assembleAux_error_of_bad tokens 0 initAsmState h
  rw [Nat.zero_add] at heq
  exact ⟨k, hk, by simp [assemble, heq], hbad, hfirst⟩

/-- Scenario-5 input: a token of kind `"unknown"` at index 3. -/
def scenario5Tokens : List Token :=
  [{ kind := "speech", text := "Let", speaker := some "spk_0" },
   { kind := "speech", text := "us", speaker := some "spk_0" },
   { kind := "speech", text := "begin", speaker := some "spk_0" },
   { kind := "unknown", text := "?", speaker := none }]

/-- Witness for C4, spec Scenario 5: the token of kind `"unknown"` at
index 3 makes `assemble` fail with `MalformedTokenError{index: 3}`. -/
theorem assemble_rejects_malformed_witness :
    assemble scenario5Tokens = .error ⟨3⟩ ∧
    (∃ k, ∃ hk : k < scenario5Tokens.length,
      assemble scenario5Tokens = .error ⟨k⟩ ∧
      recognizedKind (scenario5Tokens.get ⟨k, hk⟩).kind = false ∧
      ∀ j, j < k → ∀ hj : j < scenario5Tokens.length,
        recognizedKind (scenario5Tokens.get ⟨j, hj⟩).kind = true) :=
  ⟨rfl, assemble_rejects_malformed scenario5Tokens (by decide)⟩

/-- Despacing distributes over string append. -/
theorem despace_append (a b : String) :
    despace (a ++ b) = despace a ++ despace b := by
  simp [despace, String.data_append, List.filter_append]

/-- Despacing a space-joined buffer gives the buffer's content. -/
theorem despace_joinSp (l : List String) :
    despace (joinSp l) = bufContent l := by
  induction l with
  | nil => rfl
  | cons x xs ih =>
    cases xs with
    | nil => simp [joinSp, bufContent]
    | cons y ys =>
      simp only [joinSp]
      rw [despace_append, despace_append, show despace " " = [] from rfl]
      simp only [bufContent, List.map, List.flatten] at ih ⊢
      rw [ih]
      simp

/-- Attaching a punctuation text onto the buffer adds exactly its
content at the end. -/
theorem bufContent_appendPunct (buf : List String) (p : String) :
    bufContent (appendPunct buf p) = bufContent buf ++ despace p := by
  induction buf with
  | nil => simp [appendPunct, bufContent]
  | cons x xs ih =>
    cases xs with
    | nil => simp [appendPunct, bufContent, despace_append]
    | cons y ys =>
      simp only [appendPunct, bufContent, List.map, List.flatten] at ih ⊢
      rw [ih]
      simp [bufContent]

/-- Appending a speech text to the running full text adds exactly its
content at the end. -/
theorem despace_joinSpeech (acc t : String) :
    despace (joinSpeech acc t) = despace acc ++ despace t := by
  unfold joinSpeech
  by_cases h : acc = ""
  · rw [if_pos h, h]; rfl
  · rw [if_neg h, despace_append, despace_append,
        show despace " " = [] from rfl]
    simp

/-- Segment content distributes over segment-list append. -/
theorem segsContent_append (s1 s2 : List (String × String)) :
    segsContent (s1 ++ s2) = segsContent s1 ++ segsContent s2 := by
  simp [segsContent]

/-- When a current speaker is set, the final/step flush moves exactly the
buffer's content into the segments. -/
theorem flushState_content_some (st : AsmState)
    (h : st.currentSpeaker.isSome) :
    segsContent (flushState st) =
      segsContent st.segments ++ bufContent st.buffer := by
  obtain ⟨spk, hspk⟩ := Option.isSome_iff_exists.mp h
  have hfl : flushState st =
      if st.buffer = [] then st.segments
      else st.segments ++ [(spk, joinSp st.buffer)] := by
    unfold flushState
    rw [hspk]
  rw [hfl]
  by_cases hb : st.buffer = []
  · simp [hb, bufContent]
  · rw [if_neg hb, segsContent_append]
    simp [segsContent, despace_joinSp]

/-- The speaker-change handling preserves the content invariant and
leaves a speaker set whenever one was set before or the token carries one
over an empty buffer. -/
theorem speakerStep_inv (st : AsmState) (sp : Option String)
    (h : st.currentSpeaker.isSome ∨ (sp.isSome ∧ st.buffer = []))
    (hc : ContentInv st) :
    (speakerStep st sp).currentSpeaker.isSome ∧ ContentInv (speakerStep st sp) := by
  cases sp with
  | none =>
    rcases h with h | ⟨hs, _⟩
    · exact ⟨h, hc⟩
    · cases hs
  | some spk =>
    simp only [speakerStep]
    by_cases he : st.currentSpeaker = some spk
    · rw [if_pos he]
      exact ⟨by rw [he]; rfl, hc⟩
    · rw [if_neg he]
      refine ⟨rfl, ?_⟩
      unfold ContentInv at hc ⊢
      cases hcur : st.currentSpeaker with
      | some cur =>
        rw [flushState_content_some st (by rw [hcur]; rfl)]
        simpa [bufContent] using hc
      | none =>
        rcases h with h | ⟨_, hbuf⟩
        · rw [hcur] at h; cases h
        · have : flushState st = st.segments := by
            unfold flushState; rw [hcur]
          rw [this]
          rw [hbuf] at hc
          simpa [bufContent] using hc


/-- The kind-based append preserves the content invariant and does not
change the current speaker. -/
theorem kindStep_inv (st : AsmState) (tok : Token) (hc : ContentInv st) :
    (kindStep st tok).currentSpeaker = st.currentSpeaker ∧
    ContentInv (kindStep st tok) := by
  unfold kindStep
  by_cases hk : tok.kind = "speech"
  · rw [if_pos hk]
    refine ⟨rfl, ?_⟩
    unfold ContentInv at hc ⊢
    rw [despace_joinSpeech, hc]
    simp [bufContent]
  · rw [if_neg hk]
    refine ⟨rfl, ?_⟩
    unfold ContentInv at hc ⊢
    rw [despace_append, hc, bufContent_appendPunct]
    simp

/-- One full loop step preserves the invariant once a speaker is set, and
establishes it from the initial state when the first token carries a
speaker identity. -/
theorem asmStep_inv (st : AsmState) (tok : Token)
    (h : st.currentSpeaker.isSome ∨ (tok.speaker.isSome ∧ st.buffer = []))
    (hc : ContentInv st) :
    (asmStep st tok).currentSpeaker.isSome ∧ ContentInv (asmStep st tok) := by
  obtain ⟨h1, h2⟩ := speakerStep_inv st tok.speaker h hc
  obtain ⟨h3, h4⟩ := kindStep_inv (speakerStep st tok.speaker) tok h2
  exact ⟨by rw [asmStep, h3]; exact h1, h4⟩

/-- The assembly loop preserves the content invariant from any state with
a speaker set. -/
theorem assembleAux_inv (l : List Token) :
    ∀ (i : Nat) (st st' : AsmState),
      st.currentSpeaker.isSome → ContentInv st →
      assembleAux i st l = .ok st' →
      st'.currentSpeaker.isSome ∧ ContentInv st' := by
  induction l with
  | nil =>
    intro i st st' hsp hc h
    simp only [assembleAux, Except.ok.injEq] at h
    rw [← h]
    exact ⟨hsp, hc⟩
  | cons t rest ih =>
    intro i st st' hsp hc h
    simp only [assembleAux] at h
    by_cases hk : recognizedKind t.kind = true
    · rw [if_pos hk] at h
      obtain ⟨h1, h2⟩ := asmStep_inv st t (Or.inl hsp) hc
      exact ih (i + 1) (asmStep st t) st' h1 h2 h
    · rw [if_neg hk] at h
      cases h

/-- Despacing a left fold of string appends accumulates the contents. -/
theorem despace_foldl_append (l : List String) :
    ∀ acc, despace (l.foldl (fun r s => r ++ s) acc) =
      despace acc ++ (l.map despace).flatten := by
  induction l with
  | nil => intro acc; simp
  | cons x xs ih =>
    intro acc
    simp only [List.foldl, List.map, List.flatten]
    rw [ih, despace_append]
    simp

/-- Despacing a joined list of strings gives the flattened contents. -/
theorem despace_stringJoin (l : List String) :
    despace (String.join l) = (l.map despace).flatten := by
  have := despace_foldl_append l ""
  simpa [String.join] using this

/-- C1 (amended): for every token sequence that is empty or whose first
token carries a speaker identity (later tokens may carry none), a
successful `assemble` satisfies the §3 invariant: the concatenated
segment texts, speaker labels ignored, carry the same token content as
`full_text` modulo the spacing/punctuation-merge rule (all space
characters discounted). -/
theorem assemble_segments_content (tokens : List Token) (r : TranscriptResult)
    (hhead : tokens.head?.all (fun t => t.speaker.isSome) = true)
    (hok : assemble tokens = .ok r) :
    despace (String.join (r.segments.map Prod.snd)) = despace r.full_text := by
  cases tokens with
  | nil =>
    have h0 : assemble ([] : List Token)
        = .ok { full_text := "", segments := [] } := rfl
    rw [h0] at hok
    injection hok with h
    rw [← h]
    rfl
  | cons t rest =>
    have hsp : t.speaker.isSome = true := by simpa [Option.all] using hhead
    unfold assemble at hok
    cases haux : assembleAux 0 initAsmState (t :: rest) with
    | error e =>
      rw [haux] at hok
      simp at hok
    | ok st =>
      rw [haux] at hok
      simp only [Except.ok.injEq] at hok
      simp only [assembleAux] at haux
      by_cases hk : recognizedKind t.kind = true
      · rw [if_pos hk] at haux
        have hinit : ContentInv initAsmState := rfl
        obtain ⟨hs2, hc2⟩ :=
          asmStep_inv initAsmState t (Or.inr ⟨hsp, rfl⟩) hinit
        obtain ⟨hs3, hc3⟩ :=
          assembleAux_inv rest 1 (asmStep initAsmState t) st hs2 hc2 haux
        rw [← hok]
        rw [despace_stringJoin]
        have hmm : (((flushState st).map Prod.snd).map despace).flatten
            = segsContent (flushState st) := by
          simp only [segsContent, List.map_map]
          rfl
        rw [hmm, flushState_content_some st hs3]
        unfold ContentInv at hc3
        exact hc3.symm
      · rw [if_neg hk] at haux
        exact Except.noConfusion haux

/-- Counterexample for C1 as stated: a single speech token carrying no
speaker identity contributes to `full_text` but to no segment, so the
segment texts miss its content. -/
theorem assemble_segments_content_counterexample :
    assemble [{ kind := "speech", text := "Hello", speaker := none }]
      = .ok { full_text := "Hello", segments := [] } ∧
    despace (String.join ((([] : List (String × String))).map Prod.snd))
      ≠ despace "Hello" :=
  ⟨rfl, by decide⟩

/-- Scenario-1 input: two speakers, punctuation attached to speech. -/
def scenario1Tokens : List Token :=
  [{ kind := "speech", text := "Hello", speaker := some "spk_0" },
   { kind := "punctuation", text := ",", speaker := some "spk_0" },
   { kind := "speech", text := "world", speaker := some "spk_0" },
   { kind := "punctuation", text := ".", speaker := some "spk_0" },
   { kind := "speech", text := "Hi", speaker := some "spk_1" },
   { kind := "punctuation", text := "!", speaker := some "spk_1" }]

/-- Witness for the amended C1, spec Scenario 1: the first token carries
a speaker, assembly succeeds, and the despaced segment concatenation
matches the despaced full text. -/
theorem assemble_segments_content_witness :
    scenario1Tokens.head?.all (fun t => t.speaker.isSome) = true ∧
    assemble scenario1Tokens
      = .ok { full_text := "Hello, world. Hi!",
              segments := [("spk_0", "Hello, world."), ("spk_1", "Hi!")] } ∧
    despace (String.join
        (([("spk_0", "Hello, world."), ("spk_1", "Hi!")]
          : List (String × String)).map Prod.snd))
      = despace "Hello, world. Hi!" :=
  ⟨rfl, rfl,
   assemble_segments_content scenario1Tokens
     { full_text := "Hello, world. Hi!",
       segments := [("spk_0", "Hello, world."), ("spk_1", "Hi!")] }
     rfl rfl⟩

end MeetingCoach
